import Mathlib

/-!
Shallow embedding of the core logic of the `trading-tools` crypto DCA
simulator: the date/schedule utilities (`src/utils/dateHelpers`), the DCA
calculation engine (`dcaCalculator`), and the LocalStorage cache manager
(`src/services/cacheManager.js`).  Dates are modelled as proleptic
Gregorian civil triples with JavaScript `Date` month-overflow semantics
(all times are midnight, so a date is fully described by its civil
triple); money and prices are modelled over `Rat` (the code uses JS
floating point; the claims under study concern the algebraic structure of
the computations, not rounding).
-/

namespace DCA

/-! ### Calendar model (JS `Date` at midnight) -/

/-- Gregorian leap-year rule, as implemented by JS `Date`. -/
def isLeapYear (y : Nat) : Bool :=
  (y % 4 == 0 && y % 100 != 0) || (y % 400 == 0)

/-- Number of days in month `m` (0-based, as in JS `getMonth()`) of year `y`. -/
def daysInMonth (y m : Nat) : Nat :=
  if m = 1 then (if isLeapYear y then 29 else 28)
  else if m = 3 ∨ m = 5 ∨ m = 8 ∨ m = 10 then 30
  else 31

def daysInYear (y : Nat) : Nat := if isLeapYear y then 366 else 365

/-- Days in year `y` strictly before month `m` (0-based). -/
def daysBeforeMonth (y : Nat) : Nat → Nat
  | 0 => 0
  | m + 1 => daysBeforeMonth y m + daysInMonth y m

/-- Days strictly before year `y` (counting from year 0, proleptic Gregorian). -/
def daysBeforeYear (y : Nat) : Nat :=
  365 * y + (y + 3) / 4 - (y + 99) / 100 + (y + 399) / 400

theorem isLeapYear_iff (y : Nat) :
    isLeapYear y = true ↔ ((y % 4 = 0 ∧ y % 100 ≠ 0) ∨ y % 400 = 0) := by
  simp [isLeapYear, Bool.or_eq_true, Bool.and_eq_true, beq_iff_eq, bne_iff_ne]

set_option maxHeartbeats 2000000 in
theorem daysBeforeYear_succ (y : Nat) :
    daysBeforeYear (y + 1) = daysBeforeYear y + daysInYear y := by
  unfold daysBeforeYear daysInYear
  by_cases h : isLeapYear y = true
  · rw [if_pos h]
    rw [isLeapYear_iff] at h
    omega
  · rw [if_neg h]
    rw [isLeapYear_iff] at h
    push_neg at h
    omega

/-- A civil date as JS `Date` exposes it at midnight: `year` = `getFullYear()`,
`month` = `getMonth()` (0-based), `day` = `getDate()` (1-based). -/
structure Date where
  year : Nat
  month : Nat
  day : Nat
deriving DecidableEq, Repr

/-- Linear day number of a civil date (epoch: year 0, January 1 = day 0).
JS `Date` comparison of midnight dates agrees with comparison of this
ordinal. -/
def Date.ord (d : Date) : Nat :=
  daysBeforeYear d.year + daysBeforeMonth d.year d.month + (d.day - 1)

/-- A civil triple that a normalized JS `Date` can actually hold. -/
def Date.Valid (d : Date) : Prop :=
  d.month < 12 ∧ 1 ≤ d.day ∧ d.day ≤ daysInMonth d.year d.month

instance (d : Date) : Decidable d.Valid := by
  unfold Date.Valid; infer_instance

theorem daysInMonth_le_31 (y m : Nat) : daysInMonth y m ≤ 31 := by
  unfold daysInMonth
  split
  · split <;> omega
  · split <;> omega

theorem le_daysInMonth (y m : Nat) : 28 ≤ daysInMonth y m := by
  unfold daysInMonth
  split
  · split <;> omega
  · split <;> omega

theorem daysBeforeMonth_12 (y : Nat) : daysBeforeMonth y 12 = daysInYear y := by
  cases h : isLeapYear y <;>
    simp [daysBeforeMonth, daysInMonth, daysInYear, h]

/-- `addDays(date, 1)` on a midnight date: JS `setDate(getDate() + 1)`
normalizes day overflow into the next month/year. -/
def nextDay (d : Date) : Date :=
  if d.day < daysInMonth d.year d.month then ⟨d.year, d.month, d.day + 1⟩
  else if d.month < 11 then ⟨d.year, d.month + 1, 1⟩
  else ⟨d.year + 1, 0, 1⟩

theorem nextDay_valid {d : Date} (h : d.Valid) : (nextDay d).Valid := by
  obtain ⟨hm, hd1, hd2⟩ := h
  unfold nextDay Date.Valid
  split
  · dsimp only
    exact ⟨hm, by omega, by omega⟩
  · split
    · dsimp only
      refine ⟨by omega, by omega, ?_⟩
      have := le_daysInMonth d.year (d.month + 1); omega
    · dsimp only
      refine ⟨by omega, by omega, ?_⟩
      have := le_daysInMonth (d.year + 1) 0; omega

theorem ord_nextDay {d : Date} (h : d.Valid) : (nextDay d).ord = d.ord + 1 := by
  obtain ⟨hm, hd1, hd2⟩ := h
  unfold nextDay Date.ord
  split
  · dsimp only; omega
  · rename_i hlt
    have hday : d.day = daysInMonth d.year d.month := by omega
    split
    · rename_i hm11
      dsimp only
      simp only [daysBeforeMonth]
      omega
    · rename_i hm11
      have hm' : d.month = 11 := by omega
      have h12 := daysBeforeMonth_12 d.year
      dsimp only
      rw [hm', hday, hm']
      have h1 := le_daysInMonth d.year 11
      have h12 := daysBeforeMonth_12 d.year
      rw [daysBeforeYear_succ]
      simp only [daysBeforeMonth] at h12 ⊢
      omega

/-- JS `addDays(date, n)` for `n ≥ 0` (the code only adds 1, 7 or 14). -/
def addDays (d : Date) : Nat → Date
  | 0 => d
  | n + 1 => nextDay (addDays d n)

theorem addDays_valid {d : Date} (h : d.Valid) (n : Nat) : (addDays d n).Valid := by
  induction n with
  | zero => exact h
  | succ n ih => exact nextDay_valid ih

theorem ord_addDays {d : Date} (h : d.Valid) (n : Nat) :
    (addDays d n).ord = d.ord + n := by
  induction n with
  | zero => rfl
  | succ n ih =>
    have := ord_nextDay (addDays_valid h n)
    simp only [addDays]
    omega

/-- JS `addMonths`: `result.setMonth(result.getMonth() + months)`.  `setMonth`
keeps the day-of-month and lets a day past the end of the target month
overflow into the following month (no clamping): e.g. 2024-01-31 plus one
month is 2024-03-02. -/
def addMonths (d : Date) (months : Nat) : Date :=
  if d.day ≤ daysInMonth (d.year + (d.month + months) / 12) ((d.month + months) % 12)
  then ⟨d.year + (d.month + months) / 12, (d.month + months) % 12, d.day⟩
  else ⟨d.year + (d.month + months) / 12, (d.month + months) % 12 + 1,
        d.day - daysInMonth (d.year + (d.month + months) / 12) ((d.month + months) % 12)⟩

theorem addMonths_one_valid {d : Date} (h : d.Valid) : (addMonths d 1).Valid := by
  obtain ⟨hm, hd1, hd2⟩ := h
  have h31 := daysInMonth_le_31 d.year d.month
  unfold addMonths Date.Valid
  split
  · rename_i hle
    dsimp only
    refine ⟨?_, hd1, hle⟩
    have := Nat.mod_lt (d.month + 1) (show 0 < 12 by omega)
    omega
  · rename_i hgt
    push_neg at hgt
    dsimp only
    have h28 := le_daysInMonth (d.year + (d.month + 1) / 12) ((d.month + 1) % 12)
    have hm1lt : (d.month + 1) % 12 < 12 := Nat.mod_lt _ (by omega)
    -- December and January both have 31 days, so an overflowing target month is ≤ October
    have hne : (d.month + 1) % 12 ≠ 11 := by
      intro he
      have : daysInMonth (d.year + (d.month + 1) / 12) ((d.month + 1) % 12) = 31 := by
        rw [he]; unfold daysInMonth; norm_num
      omega
    have h28' := le_daysInMonth (d.year + (d.month + 1) / 12) ((d.month + 1) % 12 + 1)
    exact ⟨by omega, by omega, by omega⟩

theorem ord_addMonths_one {d : Date} (h : d.Valid) :
    (addMonths d 1).ord = d.ord + daysInMonth d.year d.month := by
  obtain ⟨hm, hd1, hd2⟩ := h
  unfold addMonths Date.ord
  by_cases hm11 : d.month = 11
  · have hdec : daysInMonth d.year 11 = 31 := by unfold daysInMonth; norm_num
    rw [hm11] at hd2
    rw [hdec] at hd2
    rw [hm11]
    simp only [show (11 + 1) / 12 = 1 from by norm_num,
      show (11 + 1) % 12 = 0 from by norm_num]
    have hjan : daysInMonth (d.year + 1) 0 = 31 := by unfold daysInMonth; norm_num
    rw [if_pos (by rw [hjan]; omega)]
    dsimp only
    have h12 := daysBeforeMonth_12 d.year
    rw [daysBeforeYear_succ]
    simp only [daysBeforeMonth] at h12 ⊢
    omega
  · have hdiv : (d.month + 1) / 12 = 0 := Nat.div_eq_of_lt (by omega)
    have hmod : (d.month + 1) % 12 = d.month + 1 := Nat.mod_eq_of_lt (by omega)
    simp only [hdiv, hmod, Nat.add_zero]
    split
    · dsimp only
      simp only [daysBeforeMonth]
      omega
    · rename_i hgt
      push_neg at hgt
      dsimp only
      simp only [daysBeforeMonth]
      have h28 := le_daysInMonth d.year (d.month + 1)
      omega

/-! ### Schedule Generator (`generatePurchaseDates`) -/

/-- The four DCA frequencies. The source's `default:` branch (invalid
frequency string) throws; a closed enumeration has no such case. -/
inductive Frequency where
  | daily
  | weekly
  | biweekly
  | monthly
deriving DecidableEq, Repr

/-- A normalized midnight JS `Date`: a valid civil triple. -/
def VDate := { d : Date // d.Valid }

instance : DecidableEq VDate := Subtype.instDecidableEq

/-- One advancement step of the schedule loop's `switch`. -/
def stepDate (f : Frequency) (d : VDate) : VDate :=
  match f with
  | .daily => ⟨addDays d.val 1, addDays_valid d.property 1⟩
  | .weekly => ⟨addDays d.val 7, addDays_valid d.property 7⟩
  | .biweekly => ⟨addDays d.val 14, addDays_valid d.property 14⟩
  | .monthly => ⟨addMonths d.val 1, addMonths_one_valid d.property⟩

theorem ord_lt_stepDate (f : Frequency) (d : VDate) :
    d.val.ord < (stepDate f d).val.ord := by
  cases f <;> simp only [stepDate]
  · rw [ord_addDays d.property]; omega
  · rw [ord_addDays d.property]; omega
  · rw [ord_addDays d.property]; omega
  · rw [ord_addMonths_one d.property]
    have := le_daysInMonth d.val.year d.val.month
    omega

/-- The `while (currentDate <= end)` loop of `generatePurchaseDates`:
emit the current date, then advance it by the frequency step. -/
def genLoop (f : Frequency) (e : VDate) (cur : VDate) : List VDate :=
  if cur.val.ord ≤ e.val.ord then cur :: genLoop f e (stepDate f cur) else []
termination_by e.val.ord + 1 - cur.val.ord
decreasing_by
  have := ord_lt_stepDate f cur
  omega

/-- `generatePurchaseDates(startDate, endDate, frequency)` from
`dateHelpers`: both input dates are normalized to midnight (already
reflected in `VDate`), then dates are collected from `start` stepping by
the frequency while the current date does not exceed `end`. -/
def generatePurchaseDates (startDate endDate : VDate) (f : Frequency) : List VDate :=
  genLoop f endDate startDate

theorem genLoop_eq (f : Frequency) (e cur : VDate) :
    genLoop f e cur =
      if cur.val.ord ≤ e.val.ord then cur :: genLoop f e (stepDate f cur) else [] := by
  rw [genLoop]

/-! ### DCA calculation engine (`dcaCalculator`)

Money and prices are `Rat`; timestamps are `Int` (Unix seconds).  The two
`await`ed price-API calls are black-box collaborators, so `calculateDCA`
takes their results (`historicalPrices`, `currentPrice`) as parameters;
`Except String` models `throw new Error(...)`. -/

def pad2 (n : Nat) : String := if n < 10 then "0" ++ toString n else toString n

/-- `toISODateString`: "YYYY-MM-DD". -/
def toISODateString (d : Date) : String :=
  toString d.year ++ "-" ++ pad2 (d.month + 1) ++ "-" ++ pad2 d.day

/-- Ordinal of the Unix epoch 1970-01-01 in this development's day count. -/
def epochOrd : Nat := (Date.mk 1970 0 1).ord

/-- `toUnixTimestamp`: Unix seconds of the date's midnight. -/
def toUnixTimestamp (d : Date) : Int :=
  86400 * ((d.ord : Int) - (epochOrd : Int))

/-- `HistoricalPrice` from `priceApi`: a timestamp (Unix seconds) and a price. -/
structure HistoricalPrice where
  timestamp : Int
  price : Rat
deriving DecidableEq, Repr

/-- One `DCAPurchase` record.  `runningInvested`/`runningProfitLoss` are
optional in the source (filled in by `calculateMetrics`). -/
structure DCAPurchase where
  date : String
  timestamp : Int
  price : Rat
  quantity : Rat
  invested : Rat
  runningTotal : Rat
  runningInvested : Option Rat := none
  runningProfitLoss : Option Rat := none
deriving DecidableEq, Repr

/-- The scan loop of `findClosestPrice`: keep the candidate with the
strictly smaller absolute timestamp difference, so the first point
achieving the minimum wins ties. -/
def closestLoop (t : Int) (closest : HistoricalPrice) (minDiff : Int) :
    List HistoricalPrice → HistoricalPrice
  | [] => closest
  | p :: ps =>
      if |p.timestamp - t| < minDiff then closestLoop t p (|p.timestamp - t|) ps
      else closestLoop t closest minDiff ps

/-- `findClosestPrice(targetTimestamp, prices)`: `null` on an empty series,
otherwise the price of the series point nearest in time (the loop starts
from the first point and rescans the whole list, as the source does). -/
def findClosestPrice (t : Int) (prices : List HistoricalPrice) : Option Rat :=
  match prices with
  | [] => none
  | first :: _ => some (closestLoop t first (|first.timestamp - t|) prices).price

/-- The callback of `calculatePurchases`' `map`: build one purchase record
for one date.  JS tests `if (!price)` after `findClosestPrice`, which
throws both when the price is `null` (empty series) and when it is the
number `0` (falsy). -/
def purchaseFor (historicalPrices : List HistoricalPrice) (investmentAmount : Rat)
    (date : VDate) : Except String DCAPurchase :=
  match findClosestPrice (toUnixTimestamp date.val) historicalPrices with
  | none => .error ("No price data found for " ++ toISODateString date.val)
  | some price =>
      if price = 0 then .error ("No price data found for " ++ toISODateString date.val)
      else .ok ⟨toISODateString date.val, toUnixTimestamp date.val, price,
        investmentAmount / price, investmentAmount, 0, none, none⟩

/-- `calculatePurchases`: map each purchase date to a purchase record,
throwing on the first date with no usable price. -/
def calculatePurchases (purchaseDates : List VDate)
    (historicalPrices : List HistoricalPrice) (investmentAmount : Rat) :
    Except String (List DCAPurchase) :=
  purchaseDates.mapM (purchaseFor historicalPrices investmentAmount)

/-- `DCAMetrics`. -/
structure DCAMetrics where
  totalInvested : Rat
  totalQuantity : Rat
  currentValue : Rat
  profitLoss : Rat
  profitLossPercent : Rat
  averagePrice : Rat
  currentPrice : Rat
  purchases : List DCAPurchase
deriving DecidableEq, Repr

/-- The running-totals pass of `calculateMetrics` (its `map` with the two
mutable accumulators `runningQuantity` and `runningInvested`). -/
def runningPass (runningQuantity runningInvested : Rat) :
    List DCAPurchase → List DCAPurchase
  | [] => []
  | p :: ps =>
      let rq := runningQuantity + p.quantity
      let ri := runningInvested + p.invested
      -- running portfolio value uses this purchase's own price
      { p with runningTotal := rq * p.price,
               runningInvested := some ri,
               runningProfitLoss := some (rq * p.price - ri) } :: runningPass rq ri ps

/-- `calculateMetrics(purchases, currentPrice, investmentAmount)`. -/
def calculateMetrics (purchases : List DCAPurchase) (currentPrice : Rat)
    (investmentAmount : Rat) : DCAMetrics :=
  let totalInvested := (purchases.length : Rat) * investmentAmount
  let totalQuantity := purchases.foldl (fun sum p => sum + p.quantity) 0
  let currentValue := totalQuantity * currentPrice
  let profitLoss := currentValue - totalInvested
  { totalInvested := totalInvested
    totalQuantity := totalQuantity
    currentValue := currentValue
    profitLoss := profitLoss
    profitLossPercent := profitLoss / totalInvested * 100
    averagePrice := totalInvested / totalQuantity
    currentPrice := currentPrice
    purchases := runningPass 0 0 purchases }

/-- `DCAConfig`; `endDate` is optional and defaults to "today". -/
structure DCAConfig where
  assetPair : String
  startDate : VDate
  investmentAmount : Rat
  frequency : Frequency
  endDate : Option VDate := none

/-- `DCAResults`. -/
structure DCAResults where
  purchases : List DCAPurchase
  metrics : DCAMetrics
  currentPrice : Rat
  totalPurchases : Nat
  dateRangeStart : String
  dateRangeEnd : String
deriving DecidableEq, Repr

/-- `calculateDCA(config)`.  `today` stands for `new Date()`;
`historicalPrices` and `currentPrice` are the awaited results of the two
price-API calls (black boxes per the spec). -/
def calculateDCA (config : DCAConfig) (today : VDate)
    (historicalPrices : List HistoricalPrice) (currentPrice : Rat) :
    Except String DCAResults :=
  if (generatePurchaseDates config.startDate (config.endDate.getD today)
        config.frequency).length = 0 then
    .error "No purchase dates generated. Check your date range and frequency."
  else
    match calculatePurchases
        (generatePurchaseDates config.startDate (config.endDate.getD today) config.frequency)
        historicalPrices config.investmentAmount with
    | .error e => .error e
    | .ok purchases =>
        .ok { purchases := (calculateMetrics purchases currentPrice config.investmentAmount).purchases
              metrics := calculateMetrics purchases currentPrice config.investmentAmount
              currentPrice := currentPrice
              totalPurchases :=
                (calculateMetrics purchases currentPrice config.investmentAmount).purchases.length
              dateRangeStart := toISODateString config.startDate.val
              dateRangeEnd := toISODateString (config.endDate.getD today).val }

/-! ### Cache Store (`cacheManager.js`)

LocalStorage is a finite ordered key/string store; a stored string either
parses as the cache's JSON wrapper `{value, timestamp, expiresAt}` (blob
`entry`) or fails `JSON.parse` (blob `corrupt`).  `JSON.stringify` /
`JSON.parse` round-trip JSON-serializable values, so an `entry` blob holds
the value itself.  `Date.now()` is passed explicitly as `now`; the
storage-medium quota (the cause of `QuotaExceededError`) is the explicit
parameter `quota`. -/

/-- JSON-serializable values. -/
inductive JVal where
  | jnull
  | jbool (b : Bool)
  | jnum (q : Rat)
  | jstr (s : String)
  | jarr (elems : List JVal)
  | jobj (fields : List (String × JVal))
deriving Repr

mutual
/-- Length of the serialized form of a value (models
`JSON.stringify(value).length`; the exact constants are irrelevant, only
that the length is a fixed function of the value). -/
def jsonLen : JVal → Nat
  | .jnull => 4
  | .jbool b => cond b 4 5
  | .jnum _ => 8
  | .jstr s => s.length + 2
  | .jarr l => 2 + jsonLenList l
  | .jobj f => 2 + jsonLenObj f

def jsonLenList : List JVal → Nat
  | [] => 0
  | v :: vs => jsonLen v + 1 + jsonLenList vs

def jsonLenObj : List (String × JVal) → Nat
  | [] => 0
  | (k, v) :: fs => k.length + 3 + jsonLen v + 1 + jsonLenObj fs
end

/-- A string held by the storage medium, as seen through `JSON.parse`. -/
inductive Blob where
  | entry (value : JVal) (timestamp : Int) (expiresAt : Int)
  | corrupt (len : Nat)
deriving Repr

/-- Length of the stored string. -/
def blobLen : Blob → Nat
  | .entry v _ _ => jsonLen v + 36
  | .corrupt n => n

/-- The storage medium: LocalStorage key order is its enumeration order. -/
abbrev Storage := List (String × Blob)

/-- `localStorage.getItem`. -/
def getItem (st : Storage) (k : String) : Option Blob :=
  (List.find? (fun e => e.1 == k) st).map (·.2)

/-- `localStorage.removeItem`. -/
def removeItem (st : Storage) (k : String) : Storage :=
  List.filter (fun e => e.1 != k) st

/-- `localStorage.setItem` ignoring the quota: replace in place or append. -/
def setItemRaw (st : Storage) (k : String) (b : Blob) : Storage :=
  if (List.find? (fun e => e.1 == k) st).isSome then
    List.map (fun e => if e.1 == k then (k, b) else e) st
  else st ++ [(k, b)]

/-- Total size of everything in the storage medium (the quota applies to
the whole medium, cache-owned or not); UTF-16 units are 2 bytes. -/
def totalStorageSize (st : Storage) : Nat :=
  List.foldl (fun acc e => acc + (e.1.length + blobLen e.2) * 2) 0 st

/-- `localStorage.setItem` with the medium quota: `none` models a thrown
`QuotaExceededError`. -/
def setItem (quota : Nat) (st : Storage) (k : String) (b : Blob) : Option Storage :=
  if totalStorageSize (setItemRaw st k b) > quota then none
  else some (setItemRaw st k b)

/-- `CACHE_PREFIX` of the source (renamed here): the fixed namespace every
cache key is stored under. -/
def cacheNS : String := "crypto-dca-cache:"

/-- `getCacheKey`. -/
def getCacheKey (k : String) : String := cacheNS ++ k

/-- `key.startsWith(CACHE_PREFIX)` (expressed on the character lists so
that it is kernel-computable). -/
def hasCacheNS (s : String) : Bool := cacheNS.data.isPrefixOf s.data

def DEFAULT_TTL_MS : Int := 86400000
def MAX_CACHE_SIZE_BYTES : Nat := 5242880
/-- `MAX_CACHE_SIZE_BYTES * EVICTION_THRESHOLD` with `EVICTION_THRESHOLD = 0.8`
(exact: `5242880 * 0.8 = 4194304`). -/
def evictionTargetSize : Nat := 4194304

/-- `getCacheSize`: total size of the cache-owned part of the medium. -/
def getCacheSize (st : Storage) : Nat :=
  List.foldl
    (fun acc e =>
      if hasCacheNS e.1 then acc + (e.1.length + blobLen e.2) * 2 else acc)
    0 st

/-- `getCacheEntries`: scan the medium; for each cache-owned key, parse the
stored string and record `(key, data.timestamp)`; keys whose value fails to
parse are skipped (`catch { continue }`). -/
def getCacheEntries (st : Storage) : List (String × Int) :=
  List.filterMap
    (fun e =>
      if hasCacheNS e.1 then
        match e.2 with
        | .entry _ ts _ => some (e.1, ts)
        | .corrupt _ => none
      else none)
    st

/-- The removal loop of `evictLRU`: stop once the recomputed total cache
size is within the target, else remove the next-oldest entry. -/
def evictLoop (target : Nat) (st : Storage) : List String → Storage
  | [] => st
  | k :: ks =>
      if getCacheSize st ≤ target then st
      else evictLoop target (removeItem st k) ks

/-- The comparator of the eviction sort: `(a, b) => a.timestamp - b.timestamp`,
i.e. ascending fetch time. -/
def byTimestampLE (a b : String × Int) : Prop := a.2 ≤ b.2

instance : DecidableRel byTimestampLE := fun a b => Int.decLe a.2 b.2

instance : IsTotal (String × Int) byTimestampLE := ⟨fun a b => Int.le_total a.2 b.2⟩

instance : IsTrans (String × Int) byTimestampLE := ⟨fun _ _ _ => Int.le_trans⟩

/-- `evictLRU(targetSize)`: list the owned entries, sort them by `timestamp`
ascending (JS `sort` is stable, as is insertion sort), then remove
oldest-first until the total size is within the target. -/
def evictLRU (st : Storage) (targetSize : Nat) : Storage :=
  evictLoop targetSize st
    (List.map (·.1) (List.insertionSort byTimestampLE (getCacheEntries st)))

/-- A JS value passed to `set`: either JSON-serializable, or one on which
`JSON.stringify` throws (circular references). -/
inductive StoreVal where
  | ser (v : JVal)
  | circular

/-- The pre-write threshold check of `set`: if the current cache size has
reached 80% of capacity, evict down to that threshold. -/
def maybeEvict (st : Storage) : Storage :=
  if getCacheSize st ≥ evictionTargetSize then evictLRU st evictionTargetSize else st

/-- `set(key, value, ttlMs)`: returns the JS return value and the updated
medium.  Structure of the source: maybe evict at the 80% threshold, then
`setItem`; on `QuotaExceededError` evict down to `MAX_CACHE_SIZE_BYTES / 2`
and retry exactly once, returning `false` if the retry also fails; any
other storage error (e.g. serialization failure) is caught and `false` is
returned.  The default `ttlMs` in the source is `DEFAULT_TTL_MS`. -/
def set (quota : Nat) (now : Int) (st : Storage) (k : String) (v : StoreVal)
    (ttlMs : Int) : Bool × Storage :=
  match v with
  | .circular => (false, maybeEvict st)
  | .ser val =>
      match setItem quota (maybeEvict st) (getCacheKey k) (Blob.entry val now (now + ttlMs)) with
      | some st2 => (true, st2)
      | none =>
          match setItem quota (evictLRU (maybeEvict st) (MAX_CACHE_SIZE_BYTES / 2))
              (getCacheKey k) (Blob.entry val now (now + ttlMs)) with
          | some st4 => (true, st4)
          | none => (false, evictLRU (maybeEvict st) (MAX_CACHE_SIZE_BYTES / 2))

/-- `get(key)`: `null` if absent or unparseable; if `Date.now() > expiresAt`
the entry is removed and `null` returned; otherwise the stored value. -/
def get (now : Int) (st : Storage) (k : String) : Option JVal × Storage :=
  match getItem st (getCacheKey k) with
  | none => (none, st)
  | some (.corrupt _) => (none, st)
  | some (.entry v _ e) =>
      if now > e then (none, removeItem st (getCacheKey k)) else (some v, st)

/-- `isValid(key)`: present, parseable and `Date.now() <= expiresAt`;
never mutates the medium. -/
def isValid (now : Int) (st : Storage) (k : String) : Bool :=
  match getItem st (getCacheKey k) with
  | none => false
  | some (.corrupt _) => false
  | some (.entry _ _ e) => now ≤ e

/-- The loop of `clearExpired` over the scanned entries.  Re-reading and
re-parsing an entry found by `getCacheEntries` always succeeds, so the
source's `catch` arm (remove-and-count an unparseable entry) is
unreachable; it is still modelled (`corrupt` case).  An entry that has
disappeared would parse as `'{}'`, and `now > undefined` is false, so it is
kept. -/
def clearLoop (now : Int) (st : Storage) (cleared : Nat) :
    List (String × Int) → Nat × Storage
  | [] => (cleared, st)
  | (k, _) :: es =>
      match getItem st k with
      | some (.entry _ _ e) =>
          if now > e then clearLoop now (removeItem st k) (cleared + 1) es
          else clearLoop now st cleared es
      | some (.corrupt _) => clearLoop now (removeItem st k) (cleared + 1) es
      | none => clearLoop now st cleared es

/-- `clearExpired()`. -/
def clearExpired (now : Int) (st : Storage) : Nat × Storage :=
  clearLoop now st 0 (getCacheEntries st)

/-! ### Concrete dates used by the claims -/

def date20240131 : VDate := ⟨⟨2024, 0, 31⟩, by decide⟩
def date20240229 : VDate := ⟨⟨2024, 1, 29⟩, by decide⟩
def date20240302 : VDate := ⟨⟨2024, 2, 2⟩, by decide⟩
def date20240331 : VDate := ⟨⟨2024, 2, 31⟩, by decide⟩

/-! ### Claim C1 -/

/-- C1 (counterexample): starting a monthly schedule on 2024-01-31, the
generated schedule never contains 2024-02-29: with end date 2024-02-29
there is no second purchase date at all, and with the end date extended
past it the second purchase date is 2024-03-02. -/
theorem monthly_no_clamp_cex :
    (generatePurchaseDates date20240131 date20240229 .monthly).get? 1 ≠ some date20240229 ∧
    (generatePurchaseDates date20240131 date20240331 .monthly).get? 1 = some date20240302 := by
  have h1 : generatePurchaseDates date20240131 date20240229 .monthly = [date20240131] := by
    rw [generatePurchaseDates, genLoop_eq, if_pos (by decide), genLoop_eq,
      if_neg (by decide)]
  have h2 : generatePurchaseDates date20240131 date20240331 .monthly
      = [date20240131, stepDate .monthly date20240131] := by
    rw [generatePurchaseDates, genLoop_eq, if_pos (by decide), genLoop_eq,
      if_pos (by decide), genLoop_eq, if_neg (by decide)]
  refine ⟨?_, ?_⟩
  · rw [h1]; decide
  · rw [h2]; decide

/-- C1 (amended): monthly advancement keeps the day-of-month and, when the
target month is shorter, overflows into the following month (JS `setMonth`
semantics) instead of clamping: 2024-01-31 plus one month is 2024-03-02,
so the schedule from 2024-01-31 to 2024-02-29 is just the single start
date, and with a longer end date the second purchase date is 2024-03-02. -/
theorem monthly_schedule_overflow :
    addMonths ⟨2024, 0, 31⟩ 1 = ⟨2024, 2, 2⟩ ∧
    generatePurchaseDates date20240131 date20240229 .monthly = [date20240131] ∧
    (generatePurchaseDates date20240131 date20240331 .monthly).get? 1 = some date20240302 := by
  refine ⟨by decide, ?_, ?_⟩
  · rw [generatePurchaseDates, genLoop_eq, if_pos (by decide), genLoop_eq,
      if_neg (by decide)]
  · rw [generatePurchaseDates, genLoop_eq, if_pos (by decide), genLoop_eq,
      if_pos (by decide), genLoop_eq, if_neg (by decide)]
    decide

/-! ### Claim C4 -/

/-- C4: when `start ≤ end` the generated schedule has at least one date;
when `start > end` it is empty and `calculateDCA` fails with the
configuration error, never returning an empty-but-successful result. -/
theorem schedule_nonempty_and_reject (s e : VDate) (f : Frequency) :
    (s.val.ord ≤ e.val.ord → 1 ≤ (generatePurchaseDates s e f).length) ∧
    (e.val.ord < s.val.ord →
      generatePurchaseDates s e f = [] ∧
      ∀ (ap : String) (amt : Rat) (today : VDate) (hist : List HistoricalPrice) (cur : Rat),
        calculateDCA ⟨ap, s, amt, f, some e⟩ today hist cur =
          .error "No purchase dates generated. Check your date range and frequency.") := by
  constructor
  · intro h
    rw [generatePurchaseDates, genLoop_eq, if_pos h]
    simp
  · intro h
    have hempty : generatePurchaseDates s e f = [] := by
      rw [generatePurchaseDates, genLoop_eq, if_neg (by omega)]
    refine ⟨hempty, ?_⟩
    intro ap amt today hist cur
    unfold calculateDCA
    simp only [Option.getD_some]
    rw [hempty]
    rfl

/-- C4 (witness): both branches at concrete inputs. -/
theorem schedule_nonempty_and_reject_witness :
    1 ≤ (generatePurchaseDates date20240131 date20240229 .monthly).length ∧
    generatePurchaseDates date20240229 date20240131 .monthly = [] ∧
    calculateDCA ⟨"BTC-USD", date20240229, 100, .monthly, some date20240131⟩
        date20240331 [] 5 =
      .error "No purchase dates generated. Check your date range and frequency." := by
  refine ⟨?_, ?_, ?_⟩
  · exact (schedule_nonempty_and_reject date20240131 date20240229 .monthly).1 (by decide)
  · exact ((schedule_nonempty_and_reject date20240229 date20240131 .monthly).2 (by decide)).1
  · exact ((schedule_nonempty_and_reject date20240229 date20240131 .monthly).2 (by decide)).2
      "BTC-USD" 100 date20240331 [] 5

/-! ### Claim C2 -/

theorem runningPass_length (l : List DCAPurchase) :
    ∀ rq ri, (runningPass rq ri l).length = l.length := by
  induction l with
  | nil => intro rq ri; rfl
  | cons p ps ih =>
    intro rq ri
    simp only [runningPass, List.length_cons, ih]

/-- C2: every successful `calculateDCA` result satisfies
`totalInvested = count(purchases) * investmentAmount`,
`currentValue = totalQuantity * currentPrice` and
`profitLoss = currentValue - totalInvested`. -/
theorem calculateDCA_metric_invariants (config : DCAConfig) (today : VDate)
    (hist : List HistoricalPrice) (cur : Rat) (res : DCAResults)
    (h : calculateDCA config today hist cur = .ok res) :
    res.metrics.totalInvested = (res.purchases.length : Rat) * config.investmentAmount ∧
    res.metrics.currentValue = res.metrics.totalQuantity * res.metrics.currentPrice ∧
    res.metrics.profitLoss = res.metrics.currentValue - res.metrics.totalInvested := by
  unfold calculateDCA at h
  split at h
  · exact absurd h (by simp)
  · split at h
    · exact absurd h (by simp)
    · rename_i purchases hp
      simp only [Except.ok.injEq] at h
      subst h
      refine ⟨?_, rfl, rfl⟩
      simp only [calculateMetrics]
      rw [runningPass_length]

/-- The purchase record produced in the concrete one-purchase simulation below. -/
def dcaPurchase0 : DCAPurchase :=
  ⟨toISODateString ⟨2024, 0, 31⟩, toUnixTimestamp ⟨2024, 0, 31⟩,
    50, 100 / 50, 100, 0, none, none⟩

/-- The result of the concrete one-purchase simulation below. -/
def dcaRes0 : DCAResults :=
  { purchases := runningPass 0 0 [dcaPurchase0]
    metrics := calculateMetrics [dcaPurchase0] 60 100
    currentPrice := 60
    totalPurchases := 1
    dateRangeStart := toISODateString date20240131.val
    dateRangeEnd := toISODateString date20240131.val }

/-- A concrete one-purchase simulation succeeds with result `dcaRes0`. -/
theorem calculateDCA_ok0 :
    calculateDCA ⟨"BTC-USD", date20240131, 100, .daily, some date20240131⟩
      date20240331 [⟨toUnixTimestamp ⟨2024, 0, 31⟩, 50⟩] 60 = .ok dcaRes0 := by
  have hdates : generatePurchaseDates date20240131 date20240131 .daily = [date20240131] := by
    rw [generatePurchaseDates, genLoop_eq, if_pos (by decide), genLoop_eq,
      if_neg (by decide)]
  unfold calculateDCA
  simp only [Option.getD_some]
  rw [hdates]
  rfl

/-- C2 (witness): the invariants hold for the concrete simulation result. -/
theorem calculateDCA_metric_invariants_witness :
    dcaRes0.metrics.totalInvested = (dcaRes0.purchases.length : Rat) * 100 ∧
    dcaRes0.metrics.currentValue = dcaRes0.metrics.totalQuantity * dcaRes0.metrics.currentPrice ∧
    dcaRes0.metrics.profitLoss = dcaRes0.metrics.currentValue - dcaRes0.metrics.totalInvested :=
  calculateDCA_metric_invariants _ _ _ _ _ calculateDCA_ok0

/-! ### Claim C3 -/

/-- The scan loop seeded with candidate `c` returns the first point of
`c :: l` whose timestamp distance to `t` is minimal: every point strictly
before the returned one is strictly farther from the target. -/
theorem closestLoop_firstArgmin (t : Int) :
    ∀ (l : List HistoricalPrice) (c : HistoricalPrice),
    ∃ (pre post : List HistoricalPrice) (r : HistoricalPrice),
      closestLoop t c (|c.timestamp - t|) l = r ∧
      c :: l = pre ++ r :: post ∧
      (∀ q ∈ c :: l, |r.timestamp - t| ≤ |q.timestamp - t|) ∧
      (∀ q ∈ pre, |r.timestamp - t| < |q.timestamp - t|) := by
  intro l
  induction l with
  | nil =>
    intro c
    exact ⟨[], [], c, rfl, rfl, by simp, by simp⟩
  | cons q qs ih =>
    intro c
    by_cases hlt : |q.timestamp - t| < |c.timestamp - t|
    · obtain ⟨pre, post, r, heq, hdec, hmin, hpre⟩ := ih q
      refine ⟨c :: pre, post, r, ?_, by rw [List.cons_append, ← hdec], ?_, ?_⟩
      · simpa [closestLoop, hlt] using heq
      · intro x hx
        rcases List.mem_cons.mp hx with hx | hx
        · subst hx
          have hrq : |r.timestamp - t| ≤ |q.timestamp - t| := hmin q (by simp)
          omega
        · exact hmin x hx
      · intro x hx
        rcases List.mem_cons.mp hx with hx | hx
        · subst hx
          have hrq : |r.timestamp - t| ≤ |q.timestamp - t| := hmin q (by simp)
          omega
        · exact hpre x hx
    · obtain ⟨pre, post, r, heq, hdec, hmin, hpre⟩ := ih c
      have hle : |c.timestamp - t| ≤ |q.timestamp - t| := le_of_not_lt hlt
      have heq' : closestLoop t c (|c.timestamp - t|) (q :: qs) = r := by
        simpa [closestLoop, hlt] using heq
      match pre, hdec with
      | [], hdec =>
        have hrc : r = c := by
          simpa using congrArg (fun l => l.head?) hdec.symm
        subst hrc
        refine ⟨[], q :: qs, r, heq', by simp, ?_, by simp⟩
        intro x hx
        rcases List.mem_cons.mp hx with hx | hx
        · subst hx; omega
        · rcases List.mem_cons.mp hx with hx | hx
          · subst hx; exact hle
          · exact hmin x (by simp [hx])
      | c' :: pre', hdec =>
        have hc : c' = c ∧ qs = pre' ++ r :: post := by
          have := hdec
          simp only [List.cons_append, List.cons.injEq] at this
          exact ⟨this.1.symm, this.2⟩
        obtain ⟨hc1, hc2⟩ := hc
        subst hc1
        have hrc : |r.timestamp - t| < |c'.timestamp - t| := hpre c' (by simp)
        refine ⟨c' :: q :: pre', post, r, heq', by rw [hc2]; simp, ?_, ?_⟩
        · intro x hx
          rcases List.mem_cons.mp hx with hx | hx
          · subst hx; exact hmin x (by simp)
          · rcases List.mem_cons.mp hx with hx | hx
            · subst hx; omega
            · exact hmin x (by simp [hx])
        · intro x hx
          rcases List.mem_cons.mp hx with hx | hx
          · subst hx; exact hrc
          · rcases List.mem_cons.mp hx with hx | hx
            · subst hx; omega
            · exact hpre x (by simp [hx])

/-- C3: on a non-empty series, `findClosestPrice` always returns some
price, namely that of the first point (in series order) whose timestamp
has minimum absolute difference from the target: every point is at least
as far, and every point strictly before the chosen one is strictly
farther. -/
theorem findClosestPrice_nearest (t : Int) (ps : List HistoricalPrice) (hne : ps ≠ []) :
    ∃ (pre post : List HistoricalPrice) (r : HistoricalPrice),
      ps = pre ++ r :: post ∧
      findClosestPrice t ps = some r.price ∧
      (∀ q ∈ ps, |r.timestamp - t| ≤ |q.timestamp - t|) ∧
      (∀ q ∈ pre, |r.timestamp - t| < |q.timestamp - t|) := by
  match ps, hne with
  | first :: rest, _ =>
    obtain ⟨pre, post, r, heq, hdec, hmin, hpre⟩ := closestLoop_firstArgmin t rest first
    refine ⟨pre, post, r, hdec, ?_, hmin, hpre⟩
    show some (closestLoop t first (|first.timestamp - t|) (first :: rest)).price = _
    rw [show closestLoop t first (|first.timestamp - t|) (first :: rest)
        = closestLoop t first (|first.timestamp - t|) rest by
      simp [closestLoop]]
    rw [heq]

/-- C3 (witness): a concrete sparse series with a tie between the points
at timestamps 4 and 6 for target 5; the nearest-first property holds. -/
theorem findClosestPrice_nearest_witness :
    ∃ (pre post : List HistoricalPrice) (r : HistoricalPrice),
      ([⟨0, 10⟩, ⟨4, 20⟩, ⟨6, 30⟩] : List HistoricalPrice) = pre ++ r :: post ∧
      findClosestPrice 5 [⟨0, 10⟩, ⟨4, 20⟩, ⟨6, 30⟩] = some r.price ∧
      (∀ q ∈ ([⟨0, 10⟩, ⟨4, 20⟩, ⟨6, 30⟩] : List HistoricalPrice),
        |r.timestamp - 5| ≤ |q.timestamp - 5|) ∧
      (∀ q ∈ pre, |r.timestamp - 5| < |q.timestamp - 5|) :=
  findClosestPrice_nearest 5 [⟨0, 10⟩, ⟨4, 20⟩, ⟨6, 30⟩] (by decide)

/-! ### Claim C10 -/

/-- C10: the falsy check `if (!price)` after price resolution conflates a
resolved price of exactly 0 with an absent price: if some purchase date
resolves to price 0, `calculatePurchases` throws the
"No price data found" error, and it succeeds only when every date resolves
to a non-zero price. -/
theorem calculatePurchases_zero_price (dates : List VDate)
    (hist : List HistoricalPrice) (amt : Rat) :
    ((∃ d ∈ dates, findClosestPrice (toUnixTimestamp d.val) hist = some 0) →
      ∃ d' ∈ dates, calculatePurchases dates hist amt =
        .error ("No price data found for " ++ toISODateString d'.val)) ∧
    (∀ l, calculatePurchases dates hist amt = .ok l →
      ∀ d ∈ dates, ∃ p, findClosestPrice (toUnixTimestamp d.val) hist = some p ∧ p ≠ 0) := by
  induction dates with
  | nil =>
    constructor
    · rintro ⟨d, hd, -⟩
      cases hd
    · intro l _ d hd
      cases hd
  | cons d ds ih =>
    have hcons : calculatePurchases (d :: ds) hist amt =
        Except.bind (purchaseFor hist amt d) (fun x =>
          Except.bind (calculatePurchases ds hist amt) (fun xs => Except.ok (x :: xs))) := by
      simp only [calculatePurchases, List.mapM_cons]
      rfl
    constructor
    · rintro ⟨d0, hd0, hzero⟩
      cases hfd : findClosestPrice (toUnixTimestamp d.val) hist with
      | none =>
        refine ⟨d, by simp, ?_⟩
        rw [hcons]
        simp only [purchaseFor, hfd]
        rfl
      | some p =>
        by_cases hp : p = 0
        · refine ⟨d, by simp, ?_⟩
          rw [hcons]
          simp only [purchaseFor, hfd, if_pos hp]
          rfl
        · have hd0ds : d0 ∈ ds := by
            rcases List.mem_cons.mp hd0 with h | h
            · exfalso
              subst h
              rw [hfd] at hzero
              exact hp (Option.some.inj hzero)
            · exact h
          obtain ⟨d', hd', herr⟩ := ih.1 ⟨d0, hd0ds, hzero⟩
          refine ⟨d', by simp [hd'], ?_⟩
          rw [hcons]
          simp only [purchaseFor, hfd, if_neg hp, herr]
          rfl
    · intro l hok d0 hd0
      cases hfd : findClosestPrice (toUnixTimestamp d.val) hist with
      | none =>
        rw [hcons] at hok
        simp only [purchaseFor, hfd] at hok
        exact absurd hok (by simp [Except.bind])
      | some p =>
        by_cases hp : p = 0
        · rw [hcons] at hok
          simp only [purchaseFor, hfd, if_pos hp] at hok
          exact absurd hok (by simp [Except.bind])
        · rcases List.mem_cons.mp hd0 with h | h
          · subst h
            exact ⟨p, hfd, hp⟩
          · rw [hcons] at hok
            simp only [purchaseFor, hfd, if_neg hp] at hok
            cases hds : calculatePurchases ds hist amt with
            | error e =>
              rw [hds] at hok
              exact absurd hok (by simp [Except.bind])
            | ok l' =>
              exact ih.2 l' hds d0 h

/-- C10 (witness): a date resolving to price exactly 0 makes the engine
throw, while a date resolving to a non-zero price succeeds. -/
theorem calculatePurchases_zero_price_witness :
    (∃ d' ∈ [date20240131], calculatePurchases [date20240131]
        [⟨toUnixTimestamp ⟨2024, 0, 31⟩, 0⟩] 100 =
          .error ("No price data found for " ++ toISODateString d'.val)) ∧
    (∀ d ∈ [date20240131], ∃ p, findClosestPrice (toUnixTimestamp d.val)
        [⟨toUnixTimestamp ⟨2024, 0, 31⟩, 50⟩] = some p ∧ p ≠ 0) := by
  constructor
  · exact (calculatePurchases_zero_price [date20240131]
      [⟨toUnixTimestamp ⟨2024, 0, 31⟩, 0⟩] 100).1 (by decide)
  · exact (calculatePurchases_zero_price [date20240131]
      [⟨toUnixTimestamp ⟨2024, 0, 31⟩, 50⟩] 100).2 [dcaPurchase0] (by rfl)

/-! ### Storage-medium lemmas -/

theorem find_map_upd (k : String) (b : Blob) :
    ∀ st : Storage, (List.find? (fun e => e.1 == k) st).isSome = true →
      List.find? (fun e => e.1 == k)
        (List.map (fun e => if e.1 == k then (k, b) else e) st) = some (k, b) := by
  intro st
  induction st with
  | nil => intro h; cases h
  | cons e rest ih =>
    intro h
    by_cases he : (e.1 == k) = true
    · simp only [List.map_cons, if_pos he, List.find?_cons, beq_self_eq_true]
    · have he' : (e.1 == k) = false := by simpa using he
      simp only [List.find?_cons, he'] at h
      rw [List.map_cons, if_neg he]
      simp only [List.find?_cons, he']
      exact ih h

theorem find_append_new (k : String) (b : Blob) :
    ∀ st : Storage, List.find? (fun e => e.1 == k) st = none →
      List.find? (fun e => e.1 == k) (st ++ [(k, b)]) = some (k, b) := by
  intro st
  induction st with
  | nil =>
    intro _
    simp only [List.nil_append, List.find?_cons, beq_self_eq_true]
  | cons e rest ih =>
    intro h
    by_cases he : (e.1 == k) = true
    · simp only [List.find?_cons, he] at h
      cases h
    · have he' : (e.1 == k) = false := by simpa using he
      simp only [List.find?_cons, he'] at h
      simp only [List.cons_append, List.find?_cons, he']
      exact ih h

theorem getItem_setItemRaw_self (st : Storage) (k : String) (b : Blob) :
    getItem (setItemRaw st k b) k = some b := by
  unfold setItemRaw getItem
  split
  · rename_i h
    rw [find_map_upd k b st h]
    rfl
  · rename_i h
    rw [find_append_new k b st (by
      cases hf : List.find? (fun e => e.1 == k) st
      · rfl
      · exact absurd (by rw [hf]; rfl) h)]
    rfl

theorem getItem_removeItem_self (st : Storage) (k : String) :
    getItem (removeItem st k) k = none := by
  unfold removeItem getItem
  induction st with
  | nil => rfl
  | cons e rest ih =>
    by_cases he : e.1 == k
    · simp only [List.filter_cons, bne, he, Bool.not_true]
      exact ih
    · simp only [List.filter_cons, bne, he, Bool.not_false, List.find?_cons]
      rw [if_pos trivial]
      simp only [List.find?_cons]
      rw [show (e.1 == k) = false by simpa using he]
      exact ih

theorem getItem_removeItem (st : Storage) (k k2 : String) (b : Blob)
    (h : getItem (removeItem st k) k2 = some b) : getItem st k2 = some b := by
  induction st with
  | nil => cases h
  | cons e rest ih =>
    by_cases hek : (e.1 == k) = true
    · have hdrop : removeItem (e :: rest) k = removeItem rest k := by
        simp [removeItem, List.filter_cons, bne, hek]
      rw [hdrop] at h
      by_cases he2 : (e.1 == k2) = true
      · exfalso
        have hkk : k = k2 := by rw [← eq_of_beq hek, eq_of_beq he2]
        subst hkk
        rw [getItem_removeItem_self rest k] at h
        cases h
      · have he2' : (e.1 == k2) = false := by simpa using he2
        unfold getItem
        simp only [List.find?_cons, he2']
        exact ih h
    · have hkeep : removeItem (e :: rest) k = e :: removeItem rest k := by
        simp [removeItem, List.filter_cons, bne, hek]
      rw [hkeep] at h
      by_cases he2 : (e.1 == k2) = true
      · unfold getItem at h ⊢
        simp only [List.find?_cons, he2] at h ⊢
        exact h
      · have he2' : (e.1 == k2) = false := by simpa using he2
        unfold getItem at h ⊢
        simp only [List.find?_cons, he2'] at h ⊢
        exact ih h

theorem setItem_some {quota : Nat} {st : Storage} {k : String} {b : Blob} {st' : Storage}
    (h : setItem quota st k b = some st') : st' = setItemRaw st k b := by
  unfold setItem at h
  split at h
  · cases h
  · exact (Option.some.inj h).symm

/-- A successful `set` stores the wrapper `{value, timestamp, expiresAt}`
under the namespaced key. -/
theorem set_true_lookup (quota : Nat) (now : Int) (st : Storage) (k : String)
    (v : JVal) (ttl : Int) (h : (set quota now st k (.ser v) ttl).1 = true) :
    getItem (set quota now st k (.ser v) ttl).2 (getCacheKey k)
      = some (.entry v now (now + ttl)) := by
  unfold set at h ⊢
  cases hs1 : setItem quota (maybeEvict st) (getCacheKey k) (Blob.entry v now (now + ttl)) with
  | some st2 =>
    simp only [hs1]
    rw [setItem_some hs1]
    exact getItem_setItemRaw_self _ _ _
  | none =>
    simp only [hs1] at h ⊢
    cases hs2 : setItem quota (evictLRU (maybeEvict st) (MAX_CACHE_SIZE_BYTES / 2))
        (getCacheKey k) (Blob.entry v now (now + ttl)) with
    | some st4 =>
      simp only [hs2]
      rw [setItem_some hs2]
      exact getItem_setItemRaw_self _ _ _
    | none =>
      rw [hs2] at h
      cases h

/-- `get` on a key whose stored string parses as an entry. -/
theorem get_entry (now : Int) (st : Storage) (k : String) (v : JVal) (ts e : Int)
    (h : getItem st (getCacheKey k) = some (.entry v ts e)) :
    get now st k =
      if now > e then (none, removeItem st (getCacheKey k)) else (some v, st) := by
  unfold get
  rw [h]

/-- `isValid` on a key whose stored string parses as an entry. -/
theorem isValid_entry (now : Int) (st : Storage) (k : String) (v : JVal) (ts e : Int)
    (h : getItem st (getCacheKey k) = some (.entry v ts e)) :
    isValid now st k = decide (now ≤ e) := by
  unfold isValid
  rw [h]

/-- `isValid` on an absent key. -/
theorem isValid_absent (now : Int) (st : Storage) (k : String)
    (h : getItem st (getCacheKey k) = none) : isValid now st k = false := by
  unfold isValid
  rw [h]

/-! ### Claim C5 -/

/-- C5 (counterexample): with `ttl = 150`, at `now = 150` (so
`now - set_time ≥ ttl`) `get` still returns the stored value, because the
code's expiry test is the strict `Date.now() > expiresAt`. -/
theorem cache_expiry_boundary_cex :
    ((150 : Int) - 0 ≥ 150) ∧
    (get 150 (set 10000 0 [] "k" (.ser (.jstr "v")) 150).2 "k").1 = some (.jstr "v") :=
  ⟨by omega, rfl⟩

/-- C5 (amended): after a successful `set` at time `t0` with ttl `T`,
`get` returns the value while `now - t0 ≤ T` and returns `null` once
`now - t0 > T` (strictly), removing the entry as a side effect; `isValid`
is `false` for such an expired entry and for an absent key. -/
theorem cache_expiry_semantics (quota : Nat) (t0 ttl now : Int) (st : Storage)
    (k : String) (v : JVal)
    (hset : (set quota t0 st k (.ser v) ttl).1 = true) :
    (now - t0 ≤ ttl →
      get now (set quota t0 st k (.ser v) ttl).2 k
        = (some v, (set quota t0 st k (.ser v) ttl).2)) ∧
    (now - t0 > ttl →
      (get now (set quota t0 st k (.ser v) ttl).2 k).1 = none ∧
      (get now (set quota t0 st k (.ser v) ttl).2 k).2
        = removeItem (set quota t0 st k (.ser v) ttl).2 (getCacheKey k)) ∧
    (now - t0 > ttl → isValid now (set quota t0 st k (.ser v) ttl).2 k = false) ∧
    (∀ (st' : Storage) (k' : String), getItem st' (getCacheKey k') = none →
      isValid now st' k' = false) := by
  have hlook := set_true_lookup quota t0 st k v ttl hset
  refine ⟨?_, ?_, ?_, ?_⟩
  · intro hle
    rw [get_entry now _ k v t0 (t0 + ttl) hlook]
    rw [if_neg (by omega)]
  · intro hgt
    rw [get_entry now _ k v t0 (t0 + ttl) hlook]
    rw [if_pos (by omega)]
    exact ⟨rfl, rfl⟩
  · intro hgt
    rw [isValid_entry now _ k v t0 (t0 + ttl) hlook]
    simp only [decide_eq_false_iff_not]
    omega
  · intro st' k' habs
    exact isValid_absent now st' k' habs

/-- C5 (witness): concrete instantiation, with `t0 = 0`, `ttl = 100`,
a fresh lookup at `now = 50` and an expired lookup at `now = 150`. -/
theorem cache_expiry_semantics_witness :
    (get 50 (set 10000 0 [] "k" (.ser (.jstr "v")) 100).2 "k"
      = (some (.jstr "v"), (set 10000 0 [] "k" (.ser (.jstr "v")) 100).2)) ∧
    ((get 150 (set 10000 0 [] "k" (.ser (.jstr "v")) 100).2 "k").1 = none) ∧
    (isValid 150 (set 10000 0 [] "k" (.ser (.jstr "v")) 100).2 "k" = false) ∧
    (isValid 150 ([] : Storage) "absent" = false) := by
  have h50 := cache_expiry_semantics 10000 0 100 50 [] "k" (.jstr "v") (by rfl)
  have h150 := cache_expiry_semantics 10000 0 100 150 [] "k" (.jstr "v") (by rfl)
  exact ⟨h50.1 (by omega), (h150.2.1 (by omega)).1, h150.2.2.1 (by omega),
    h150.2.2.2 [] "absent" (by rfl)⟩

/-! ### Claim C6 -/

/-- C6: cache round-trip — whenever the storage medium accepts the write,
`set(k, v)` (default TTL) followed by an immediate `get(k)` returns `v`. -/
theorem cache_roundtrip (quota : Nat) (now : Int) (st : Storage) (k : String) (v : JVal)
    (hset : (set quota now st k (.ser v) DEFAULT_TTL_MS).1 = true) :
    (get now (set quota now st k (.ser v) DEFAULT_TTL_MS).2 k).1 = some v := by
  have hlook := set_true_lookup quota now st k v DEFAULT_TTL_MS hset
  rw [get_entry now _ k v now (now + DEFAULT_TTL_MS) hlook]
  rw [if_neg (by unfold DEFAULT_TTL_MS; omega)]

/-- C6 (witness): concrete round-trip of an object value. -/
theorem cache_roundtrip_witness :
    (get 7 (set 100000 7 [] "prices" (.ser (.jobj [("id", .jnum 1)])) DEFAULT_TTL_MS).2
      "prices").1 = some (.jobj [("id", .jnum 1)]) :=
  cache_roundtrip 100000 7 [] "prices" (.jobj [("id", .jnum 1)]) (by rfl)

/-! ### Claim C7 -/

/-- Remove a list of keys in order. -/
def removeKeys (st : Storage) (ks : List String) : Storage :=
  ks.foldl removeItem st

theorem evictLoop_spec (target : Nat) :
    ∀ (ks : List String) (st : Storage),
    ∃ n, n ≤ ks.length ∧
      evictLoop target st ks = removeKeys st (ks.take n) ∧
      (∀ m < n, target < getCacheSize (removeKeys st (ks.take m))) ∧
      (getCacheSize (evictLoop target st ks) ≤ target ∨ n = ks.length) := by
  intro ks
  induction ks with
  | nil =>
    intro st
    exact ⟨0, by omega, rfl, by omega, Or.inr rfl⟩
  | cons k ks ih =>
    intro st
    by_cases hsz : getCacheSize st ≤ target
    · refine ⟨0, by omega, ?_, by omega, Or.inl ?_⟩
      · simp [evictLoop, hsz, removeKeys]
      · rw [show evictLoop target st (k :: ks) = st by simp [evictLoop, hsz]]
        exact hsz
    · obtain ⟨n', hn', heq, hmin, hlast⟩ := ih (removeItem st k)
      have hstep : evictLoop target st (k :: ks) = evictLoop target (removeItem st k) ks := by
        simp [evictLoop, hsz]
      refine ⟨n' + 1, by simpa using hn', ?_, ?_, ?_⟩
      · rw [hstep, heq]
        rfl
      · intro m hm
        match m with
        | 0 =>
          simpa [removeKeys] using hsz
        | m' + 1 =>
          exact hmin m' (by omega)
      · rw [hstep]
        rcases hlast with h | h
        · exact Or.inl h
        · exact Or.inr (by simp [h])

/-- C7: eviction lists the owned (parseable) entries with their stored
`timestamp`, sorts them ascending by that write time, and removes a
minimal prefix of that order — recomputing the total size after each
removal — stopping as soon as the size is within the target (or all listed
entries are gone); and `get` never rewrites an entry, so reads cannot
refresh an entry's timestamp: any entry of the post-`get` store was
already in the store unchanged. -/
theorem evictLRU_lru_and_reads (st : Storage) (target : Nat) (now : Int) (k : String) :
    (∃ (sorted : List (String × Int)) (n : Nat),
      List.Perm sorted (getCacheEntries st) ∧
      List.Sorted byTimestampLE sorted ∧
      n ≤ sorted.length ∧
      evictLRU st target = removeKeys st ((List.map (·.1) sorted).take n) ∧
      (∀ m < n, target < getCacheSize (removeKeys st ((List.map (·.1) sorted).take m))) ∧
      (getCacheSize (evictLRU st target) ≤ target ∨ n = sorted.length)) ∧
    (∀ (k2 : String) (b : Blob), getItem (get now st k).2 k2 = some b →
      getItem st k2 = some b) := by
  constructor
  · obtain ⟨n, hn, heq, hmin, hlast⟩ :=
      evictLoop_spec target (List.map (·.1) (List.insertionSort byTimestampLE (getCacheEntries st))) st
    refine ⟨List.insertionSort byTimestampLE (getCacheEntries st), n,
      List.perm_insertionSort byTimestampLE (getCacheEntries st),
      List.sorted_insertionSort byTimestampLE (getCacheEntries st),
      by simpa using hn, heq, hmin, ?_⟩
    rcases hlast with h | h
    · exact Or.inl h
    · exact Or.inr (by simpa using h)
  · intro k2 b h
    cases hit : getItem st (getCacheKey k) with
    | none =>
      have hg : get now st k = (none, st) := by unfold get; rw [hit]
      rw [hg] at h
      exact h
    | some blob =>
      cases blob with
      | corrupt len =>
        have hg : get now st k = (none, st) := by unfold get; rw [hit]
        rw [hg] at h
        exact h
      | entry v ts e =>
        rw [get_entry now st k v ts e hit] at h
        by_cases hexp : now > e
        · rw [if_pos hexp] at h
          exact getItem_removeItem st (getCacheKey k) k2 b h
        · rw [if_neg hexp] at h
          exact h

/-- C7 (witness): concrete instantiation; the `get` at `now = 200` expires
and removes the entry under key "a", leaving the entry under key "b"
untouched (same stored blob, same timestamp). -/
theorem evictLRU_lru_and_reads_witness :
    (∃ (sorted : List (String × Int)) (n : Nat),
      List.Perm sorted (getCacheEntries
        [(getCacheKey "a", .entry .jnull 5 100), (getCacheKey "b", .entry (.jstr "x") 7 300)]) ∧
      List.Sorted byTimestampLE sorted ∧
      n ≤ sorted.length ∧
      evictLRU [(getCacheKey "a", .entry .jnull 5 100), (getCacheKey "b", .entry (.jstr "x") 7 300)] 0
        = removeKeys [(getCacheKey "a", .entry .jnull 5 100), (getCacheKey "b", .entry (.jstr "x") 7 300)]
            ((List.map (·.1) sorted).take n) ∧
      (∀ m < n, 0 < getCacheSize (removeKeys
        [(getCacheKey "a", .entry .jnull 5 100), (getCacheKey "b", .entry (.jstr "x") 7 300)]
        ((List.map (·.1) sorted).take m))) ∧
      (getCacheSize (evictLRU
        [(getCacheKey "a", .entry .jnull 5 100), (getCacheKey "b", .entry (.jstr "x") 7 300)] 0) ≤ 0 ∨
        n = sorted.length)) ∧
    getItem [(getCacheKey "a", .entry .jnull 5 100), (getCacheKey "b", .entry (.jstr "x") 7 300)]
      (getCacheKey "b") = some (.entry (.jstr "x") 7 300) :=
  ⟨(evictLRU_lru_and_reads
      [(getCacheKey "a", .entry .jnull 5 100), (getCacheKey "b", .entry (.jstr "x") 7 300)]
      0 200 "a").1,
   (evictLRU_lru_and_reads
      [(getCacheKey "a", .entry .jnull 5 100), (getCacheKey "b", .entry (.jstr "x") 7 300)]
      0 200 "a").2 (getCacheKey "b") (.entry (.jstr "x") 7 300) (by rfl)⟩

/-! ### Claim C8 -/

/-- C8: `clearExpired` scans via `getCacheEntries`, which silently skips
entries that fail to deserialize, so a corrupt entry is never removed and
never counted — contradicting the claim (and the source's own
`// Invalid entry, remove it` comment): here, with one corrupt entry and
one expired parseable entry at `now = 1000`, only the expired entry is
removed and the count is 1, while the corrupt entry survives. -/
theorem clearExpired_skips_corrupt :
    clearExpired 1000
      [(getCacheKey "bad", .corrupt 10), (getCacheKey "old", .entry .jnull 0 5)]
      = (1, [(getCacheKey "bad", .corrupt 10)]) := by
  rfl

/-! ### Claim C9 -/

/-- C9: `set` and `get` are total — every storage-medium error becomes a
`false` or `null` return value.  Specifically: `get` on an entry that
fails deserialization returns `null` without touching the store; `set` of
an unserializable value returns `false` (the state keeps only the
pre-write threshold eviction); if `set` returned `false` for a
serializable value, then both the initial write and the single retry were
quota-rejected and the final state is the aggressive eviction to half
capacity; and when the initial write is quota-rejected, `set` behaves as:
evict to `MAX_CACHE_SIZE_BYTES / 2`, retry the write exactly once,
succeeding iff that retry is accepted. -/
theorem set_get_failure_semantics (quota : Nat) (now : Int) (st : Storage)
    (k : String) (v : JVal) (ttl : Int) :
    (∀ n, getItem st (getCacheKey k) = some (.corrupt n) → get now st k = (none, st)) ∧
    (set quota now st k .circular ttl = (false, maybeEvict st)) ∧
    ((set quota now st k (.ser v) ttl).1 = false →
      setItem quota (maybeEvict st) (getCacheKey k) (.entry v now (now + ttl)) = none ∧
      setItem quota (evictLRU (maybeEvict st) (MAX_CACHE_SIZE_BYTES / 2))
        (getCacheKey k) (.entry v now (now + ttl)) = none ∧
      (set quota now st k (.ser v) ttl).2
        = evictLRU (maybeEvict st) (MAX_CACHE_SIZE_BYTES / 2)) ∧
    (setItem quota (maybeEvict st) (getCacheKey k) (.entry v now (now + ttl)) = none →
      set quota now st k (.ser v) ttl =
        match setItem quota (evictLRU (maybeEvict st) (MAX_CACHE_SIZE_BYTES / 2))
            (getCacheKey k) (.entry v now (now + ttl)) with
        | some st4 => (true, st4)
        | none => (false, evictLRU (maybeEvict st) (MAX_CACHE_SIZE_BYTES / 2))) := by
  refine ⟨?_, rfl, ?_, ?_⟩
  · intro n h
    unfold get
    rw [h]
  · intro hfalse
    simp only [set] at hfalse ⊢
    cases hs1 : setItem quota (maybeEvict st) (getCacheKey k) (.entry v now (now + ttl)) with
    | some st2 =>
      rw [hs1] at hfalse
      cases hfalse
    | none =>
      rw [hs1] at hfalse
      cases hs2 : setItem quota (evictLRU (maybeEvict st) (MAX_CACHE_SIZE_BYTES / 2))
          (getCacheKey k) (.entry v now (now + ttl)) with
      | some st4 =>
        rw [hs2] at hfalse
        cases hfalse
      | none =>
        exact ⟨rfl, rfl, rfl⟩
  · intro hrej
    simp only [set]
    rw [hrej]

/-- C9 (witness): a corrupt entry makes `get` return `null` with the store
untouched, and with `quota = 0` both write attempts are rejected so `set`
returns `false`; the retry path is exercised explicitly. -/
theorem set_get_failure_semantics_witness :
    get 100 [(getCacheKey "bad", .corrupt 3)] "bad" = (none, [(getCacheKey "bad", .corrupt 3)]) ∧
    set 0 100 [] "k" .circular 50 = (false, maybeEvict []) ∧
    (setItem 0 (maybeEvict []) (getCacheKey "k") (.entry (.jstr "v") 100 150) = none ∧
      setItem 0 (evictLRU (maybeEvict []) (MAX_CACHE_SIZE_BYTES / 2))
        (getCacheKey "k") (.entry (.jstr "v") 100 150) = none ∧
      (set 0 100 [] "k" (.ser (.jstr "v")) 50).2
        = evictLRU (maybeEvict []) (MAX_CACHE_SIZE_BYTES / 2)) ∧
    set 0 100 [] "k" (.ser (.jstr "v")) 50 =
      (match setItem 0 (evictLRU (maybeEvict []) (MAX_CACHE_SIZE_BYTES / 2))
          (getCacheKey "k") (.entry (.jstr "v") 100 150) with
       | some st4 => (true, st4)
       | none => (false, evictLRU (maybeEvict []) (MAX_CACHE_SIZE_BYTES / 2))) :=
  ⟨(set_get_failure_semantics 0 100 [(getCacheKey "bad", .corrupt 3)] "bad" (.jstr "v") 50).1
      3 (by rfl),
   (set_get_failure_semantics 0 100 [] "k" (.jstr "v") 50).2.1,
   (set_get_failure_semantics 0 100 [] "k" (.jstr "v") 50).2.2.1 (by rfl),
   (set_get_failure_semantics 0 100 [] "k" (.jstr "v") 50).2.2.2 (by rfl)⟩

end DCA
